import Mathlib

/-!
Verification of the finance dashboard `src/app.py` (data normalization,
filter engine, carry-over balance, running balance, daily timeline, and
the save-to-sheet handler), as a shallow embedding in Lean.

Conventions of the embedding:
* monetary values are rationals (the source uses floats; every amount the
  properties exercise is an exact decimal);
* a pandas cell that may be missing (`NaN`/`NaT`) is an `Option`;
* `Data_Transacao` cells are modelled *after* `pd.to_datetime(..., errors
  ` `= 'coerce'`): either a parsed calendar date or `none` (NaT);
* `sort_values(ascending=True)` is a stable merge sort on the date key;
  `sort_values(ascending=False)` is modelled as the reverse of the
  ascending sort, which is how pandas implements a descending sort (the
  ascending order indexer is reversed).
-/

/-- A calendar date as produced by `pd.to_datetime` (day granularity;
tab3 compares `.dt.date`, and the app's dates carry no time component). -/
structure Date where
  year : Nat
  month : Nat
  day : Nat
deriving DecidableEq, Repr

/-- Strict chronological order on dates (`Data_Transacao < data_inicio_mes`
and the sort key), lexicographic on (year, month, day). -/
def dateLtB (a b : Date) : Bool :=
  a.year < b.year ||
    (a.year == b.year && (a.month < b.month ||
      (a.month == b.month && a.day < b.day)))

/-- Reflexive chronological order on dates, used as the sort key. -/
def dateLeB (a b : Date) : Bool :=
  dateLtB a b || a == b

/-- A date is valid when it could have come out of `pd.to_datetime`:
month in 1..12, day at least 1. -/
def ValidDate (d : Date) : Prop :=
  1 ≤ d.month ∧ d.month ≤ 12 ∧ 1 ≤ d.day

instance (d : Date) : Decidable (ValidDate d) := by
  unfold ValidDate; infer_instance

theorem dateLtB_iff (a b : Date) :
    dateLtB a b = true ↔
      (a.year < b.year ∨ (a.year = b.year ∧ (a.month < b.month ∨
        (a.month = b.month ∧ a.day < b.day)))) := by
  simp [dateLtB]

theorem dateLeB_iff (a b : Date) :
    dateLeB a b = true ↔ (dateLtB a b = true ∨ a = b) := by
  simp [dateLeB]

theorem dateLeB_refl (a : Date) : dateLeB a a = true := by
  simp [dateLeB]

theorem dateLeB_trans {a b c : Date} (h1 : dateLeB a b = true)
    (h2 : dateLeB b c = true) : dateLeB a c = true := by
  rcases a with ⟨ay, am, ad⟩; rcases b with ⟨by', bm, bd⟩; rcases c with ⟨cy, cm, cd⟩
  simp only [dateLeB_iff, dateLtB_iff, Date.mk.injEq] at h1 h2 ⊢
  omega

theorem dateLeB_total (a b : Date) :
    (dateLeB a b || dateLeB b a) = true := by
  rcases a with ⟨ay, am, ad⟩; rcases b with ⟨by', bm, bd⟩
  simp only [Bool.or_eq_true, dateLeB_iff, dateLtB_iff, Date.mk.injEq]
  omega

theorem dateLeB_antisymm {a b : Date} (h1 : dateLeB a b = true)
    (h2 : dateLeB b a = true) : a = b := by
  rcases a with ⟨ay, am, ad⟩; rcases b with ⟨by', bm, bd⟩
  simp only [dateLeB_iff, dateLtB_iff, Date.mk.injEq] at h1 h2 ⊢
  omega

theorem dateLeB_of_not_lt {a b : Date} (h : ¬ dateLtB a b = true) :
    dateLeB b a = true := by
  rcases a with ⟨ay, am, ad⟩; rcases b with ⟨by', bm, bd⟩
  simp only [dateLeB_iff, dateLtB_iff, Date.mk.injEq] at h ⊢
  omega

/-! ### Decimal rendering of the Year-Month key

`df['Mes_Referencia'] = df['Data_Transacao'].dt.strftime('%Y-%m')` renders
the year in decimal and the month zero-padded to two digits.  We embed the
decimal printer directly (least-significant digit first, then reversed). -/

/-- Decimal digits of `n`, least significant first; `fuel` bounds the
number of digits so the recursion is structural (and kernel-computable). -/
def natDigitsRevGo : Nat → Nat → List Char
  | 0, _ => []
  | fuel + 1, n =>
    if n < 10 then [Nat.digitChar n]
    else Nat.digitChar (n % 10) :: natDigitsRevGo fuel (n / 10)

/-- Decimal digits of `n`, least significant first. -/
def natDigitsRev (n : Nat) : List Char :=
  natDigitsRevGo (n + 1) n

/-- Decimal rendering of a natural number (what `%Y` prints for the
four-digit years `pd.to_datetime` can produce). -/
def natToStr (n : Nat) : String :=
  ⟨(natDigitsRev n).reverse⟩

/-- Two-digit zero-padded rendering (what `%m` prints). -/
def pad2 (n : Nat) : String :=
  if n < 10 then "0" ++ natToStr n else natToStr n

/-- The derived Year-Month key of a date: `strftime('%Y-%m')`. -/
def mesReferencia (d : Date) : String :=
  natToStr d.year ++ "-" ++ pad2 d.month

theorem natDigitsRevGo_congr : ∀ {f1 f2 n : Nat}, n < f1 → n < f2 →
    natDigitsRevGo f1 n = natDigitsRevGo f2 n := by
  intro f1
  induction f1 with
  | zero => omega
  | succ f1 ih =>
    intro f2 n h1 h2
    cases f2 with
    | zero => omega
    | succ f2 =>
      show (if n < 10 then _ else _) = (if n < 10 then _ else _)
      by_cases hn : n < 10
      · simp [hn]
      · have hd : n / 10 < n := Nat.div_lt_self (by omega) (by omega)
        rw [if_neg hn, if_neg hn]
        exact congrArg (List.cons _) (ih (by omega) (by omega))

/-- The defining equation of `natDigitsRev`, free of fuel. -/
theorem natDigitsRev_eq (n : Nat) :
    natDigitsRev n = if n < 10 then [Nat.digitChar n]
      else Nat.digitChar (n % 10) :: natDigitsRev (n / 10) := by
  show natDigitsRevGo (n + 1) n = _
  by_cases hn : n < 10
  · simp [natDigitsRevGo, hn]
  · have hd : n / 10 < n := Nat.div_lt_self (by omega) (by omega)
    show (if n < 10 then _ else _) = _
    rw [if_neg hn, if_neg hn]
    exact congrArg (List.cons _) (natDigitsRevGo_congr (by omega) (by omega))

theorem digitChar_inj : ∀ a < 10, ∀ b < 10,
    Nat.digitChar a = Nat.digitChar b → a = b := by decide

theorem digitChar_ne_dash : ∀ a < 10, Nat.digitChar a ≠ '-' := by decide

theorem natDigitsRev_ne_nil (n : Nat) : natDigitsRev n ≠ [] := by
  rw [natDigitsRev_eq]
  split <;> simp

theorem natDigitsRev_inj : ∀ {m n : Nat},
    natDigitsRev m = natDigitsRev n → m = n := by
  intro m
  induction m using Nat.strong_induction_on with
  | _ m ih =>
    intro n h
    rw [natDigitsRev_eq m, natDigitsRev_eq n] at h
    by_cases hm : m < 10 <;> by_cases hn : n < 10
    · simp only [hm, hn, if_pos] at h
      exact digitChar_inj m hm n hn (by simpa using h)
    · simp only [hm, hn, if_pos, if_neg, not_false_iff, List.cons.injEq] at h
      exact absurd h.2.symm (natDigitsRev_ne_nil (n / 10))
    · simp only [hm, hn, if_pos, if_neg, not_false_iff, List.cons.injEq] at h
      exact absurd h.2 (natDigitsRev_ne_nil (m / 10))
    · simp only [hm, hn, if_neg, not_false_iff, List.cons.injEq] at h
      have h1 : m % 10 = n % 10 :=
        digitChar_inj _ (Nat.mod_lt _ (by omega)) _ (Nat.mod_lt _ (by omega)) h.1
      have h2 : m / 10 = n / 10 :=
        ih (m / 10) (Nat.div_lt_self (by omega) (by omega)) h.2
      omega

theorem natDigitsRev_no_dash (n : Nat) : ∀ c ∈ natDigitsRev n, c ≠ '-' := by
  induction n using Nat.strong_induction_on with
  | _ n ih =>
    intro c hc
    rw [natDigitsRev_eq] at hc
    by_cases hn : n < 10
    · simp only [hn, if_pos, List.mem_singleton] at hc
      subst hc; exact digitChar_ne_dash n hn
    · simp only [hn, if_neg, not_false_iff, List.mem_cons] at hc
      rcases hc with hc | hc
      · subst hc; exact digitChar_ne_dash _ (Nat.mod_lt _ (by omega))
      · exact ih (n / 10) (Nat.div_lt_self (by omega) (by omega)) c hc

theorem natToStr_inj {m n : Nat} (h : natToStr m = natToStr n) : m = n := by
  have hd : (natDigitsRev m).reverse = (natDigitsRev n).reverse :=
    congrArg String.data h
  exact natDigitsRev_inj (List.reverse_injective hd)

theorem natToStr_no_dash (n : Nat) : ∀ c ∈ (natToStr n).data, c ≠ '-' := by
  intro c hc
  exact natDigitsRev_no_dash n c (by simpa [natToStr] using hc)

theorem pad2_inj_aux : ∀ m < 13, ∀ n < 13, pad2 m = pad2 n → m = n := by
  decide

theorem pad2_inj {m n : Nat} (hm : m < 13) (hn : n < 13)
    (h : pad2 m = pad2 n) : m = n :=
  pad2_inj_aux m hm n hn h

theorem pad2_no_dash (n : Nat) : ∀ c ∈ (pad2 n).data, c ≠ '-' := by
  intro c hc
  unfold pad2 at hc
  by_cases hn : n < 10
  · rw [if_pos hn] at hc
    rw [String.data_append] at hc
    rcases List.mem_append.mp hc with hc | hc
    · simp only [List.mem_singleton.mp (by simpa using hc)]
      decide
    · exact natToStr_no_dash n c hc
  · rw [if_neg hn] at hc
    exact natToStr_no_dash n c hc

/-- A character list with a unique dash splits uniquely. -/
theorem dash_split_inj : ∀ {l1 l2 r1 r2 : List Char},
    (∀ c ∈ l1, c ≠ '-') → (∀ c ∈ l2, c ≠ '-') →
    l1 ++ '-' :: r1 = l2 ++ '-' :: r2 → l1 = l2 ∧ r1 = r2 := by
  intro l1
  induction l1 with
  | nil =>
    intro l2 r1 r2 _ h2 h
    cases l2 with
    | nil => simpa using h
    | cons c cs =>
      exfalso
      simp only [List.nil_append, List.cons_append, List.cons.injEq] at h
      exact h2 c (by simp) h.1.symm
  | cons c cs ih =>
    intro l2 r1 r2 h1 h2 h
    cases l2 with
    | nil =>
      exfalso
      simp only [List.nil_append, List.cons_append, List.cons.injEq] at h
      exact h1 c (by simp) h.1
    | cons d ds =>
      simp only [List.cons_append, List.cons.injEq] at h
      obtain ⟨hcd, hrest⟩ := h
      obtain ⟨hl, hr⟩ := ih (fun x hx => h1 x (by simp [hx]))
        (fun x hx => h2 x (by simp [hx])) hrest
      exact ⟨by simp [hcd, hl], hr⟩

/-- The Year-Month key respects calendar months: for valid months the key
is equal exactly when year and month agree. -/
theorem mesReferencia_eq_iff {d e : Date} (hd : d.month ≤ 12) (he : e.month ≤ 12) :
    mesReferencia d = mesReferencia e ↔ (d.year = e.year ∧ d.month = e.month) := by
  constructor
  · intro h
    have hdata : (natToStr d.year).data ++ '-' :: (pad2 d.month).data =
        (natToStr e.year).data ++ '-' :: (pad2 e.month).data := by
      have := congrArg String.data h
      simpa [mesReferencia, String.data_append] using this
    obtain ⟨hy, hm⟩ := dash_split_inj (natToStr_no_dash d.year)
      (natToStr_no_dash e.year) hdata
    exact ⟨natToStr_inj (congrArg String.mk hy),
      pad2_inj (by omega) (by omega) (congrArg String.mk hm)⟩
  · intro ⟨hy, hm⟩
    simp [mesReferencia, hy, hm]

/-! ### Amount normalization (`Valor`, lines 113-124) -/

/-- A raw spreadsheet cell: missing (`NaN`), textual, or numeric. -/
inductive Cell where
  | blank : Cell
  | str : String → Cell
  | num : ℚ → Cell
deriving DecidableEq, Repr

/-- `astype(str)` on one cell: a missing value stringifies to `"nan"`
(so a later `fillna` no longer sees it as missing). -/
def astypeStr : Cell → String
  | .blank => "nan"
  | .str s => s
  | .num q => toString q

/-- `.str.replace('.', '', regex=False)`: drop every dot. -/
def stripDots (s : String) : String :=
  ⟨s.data.filter (fun c => c != '.')⟩

/-- `.str.replace(',', '.')`: every comma becomes a dot. -/
def commaToDot (s : String) : String :=
  ⟨s.data.map (fun c => if c = ',' then '.' else c)⟩

/-- Value of a digit character. -/
def charDigit (c : Char) : Nat := c.toNat - '0'.toNat

def isDigit (c : Char) : Bool := '0' ≤ c && c ≤ '9'

/-- Numeric value of a digit string, most significant digit first. -/
def digitsVal (l : List Char) : Nat :=
  l.foldl (fun a c => 10 * a + charDigit c) 0

/-- Parse an unsigned decimal literal: digits with at most one dot and at
least one digit overall (the shape `pd.to_numeric` accepts for the
strings this pipeline produces). -/
def parseUnsigned (l : List Char) : Option ℚ :=
  let ip := l.takeWhile (fun c => c != '.')
  match l.dropWhile (fun c => c != '.') with
  | [] =>
    if ip.all isDigit && !ip.isEmpty then some (digitsVal ip) else none
  | _ :: fp =>
    if ip.all isDigit && fp.all isDigit && !(ip.isEmpty && fp.isEmpty) then
      some ((digitsVal ip : ℚ) + (digitsVal fp : ℚ) / (10 : ℚ) ^ fp.length)
    else none

/-- `pd.to_numeric(..., errors='coerce')` on one string; `none` covers
both coercion failure and the float `nan` (either way the following
`fillna(0.0)` turns the cell into `0.0`). -/
def toNumeric (s : String) : Option ℚ :=
  match s.data with
  | '-' :: rest => (parseUnsigned rest).map (fun q => -q)
  | '+' :: rest => parseUnsigned rest
  | l => parseUnsigned l

/-- Normalization of one `Valor` cell (lines 113-121): when the column
dtype is `object` the textual chain `astype(str)`, drop dots, comma to
dot, `to_numeric(errors='coerce')`, `fillna(0.0)` applies; a numeric
column only passes through `to_numeric` (identity on numbers) with `NaN`
filled by `0.0`. -/
def normValorCell (textual : Bool) (c : Cell) : ℚ :=
  if textual then
    (toNumeric (commaToDot (stripDots (astypeStr c)))).getD 0
  else
    match c with
    | .num q => q
    | .str s => (toNumeric s).getD 0
    | .blank => 0

/-! ### Text and status columns (lines 126-140) -/

/-- One text-column cell (lines 134-140): an absent column is filled with
`"Não Informado"`; a present column goes through `astype(str).fillna("-")`
— `astype(str)` stringifies a missing cell to `"nan"` first, so the
`fillna` finds nothing missing and is the identity. -/
def normTextCell (hasCol : Bool) (c : Option String) : String :=
  if hasCol then
    match c with
    | none => "nan"
    | some s => s
  else "Não Informado"

/-- The `Status` column (lines 128-132): absent column means `'Realizado'`
everywhere; a present column is `fillna('Realizado')` *before* the string
cast, so blank cells become `'Realizado'`. -/
def normStatusCell (hasCol : Bool) (c : Option String) : String :=
  if hasCol then
    match c with
    | none => "Realizado"
    | some s => s
  else "Realizado"

/-! ### The ledger -/

/-- A normalized ledger entry (one row of the cleaned dataframe). -/
structure Entry where
  dataTransacao : Date
  valor : ℚ
  tipoMovimento : String
  status : String
  instituicao : String
  categoriaMacro : String
  descricao : String
deriving DecidableEq, Repr

/-- One raw row: the date cell is modelled after
`pd.to_datetime(..., errors='coerce')` (`none` = NaT). -/
structure RawRow where
  dataTransacao : Option Date
  valor : Cell
  tipoMovimento : Option String
  status : Option String
  instituicao : Option String
  categoriaMacro : Option String
  descricao : Option String
deriving DecidableEq, Repr

/-- A raw table: the rows plus the column-level facts the code branches
on (`dtype == 'object'` for `Valor`, column presence for the rest). -/
structure RawTable where
  rows : List RawRow
  valorTextual : Bool
  hasStatus : Bool
  hasInstituicao : Bool
  hasTipoMovimento : Bool
  hasCategoriaMacro : Bool
  hasDescricao : Bool
deriving Repr

/-- Cell-wise normalization of one row whose date parsed to `d`. -/
def normalizeRow (t : RawTable) (r : RawRow) (d : Date) : Entry :=
  { dataTransacao := d
    valor := normValorCell t.valorTextual r.valor
    tipoMovimento := normTextCell t.hasTipoMovimento r.tipoMovimento
    status := normStatusCell t.hasStatus r.status
    instituicao := normTextCell t.hasInstituicao r.instituicao
    categoriaMacro := normTextCell t.hasCategoriaMacro r.categoriaMacro
    descricao := normTextCell t.hasDescricao r.descricao }

/-- `sort_values(by='Data_Transacao', ascending=True)`: stable sort on
the date key. -/
def sortAscData (l : List Entry) : List Entry :=
  l.mergeSort (fun a b => dateLeB a.dataTransacao b.dataTransacao)

/-- `sort_values(ascending=False)`: pandas reverses the ascending order
indexer, i.e. the reverse of the stable ascending sort. -/
def sortDescData (l : List Entry) : List Entry :=
  (sortAscData l).reverse

/-- The full Schema Normalizer (lines 100-146): rows whose date failed to
parse (NaT) are dropped by `dropna`, the surviving rows are normalized
cell-wise, and the result is sorted descending by date. -/
def normalizeTable (t : RawTable) : List Entry :=
  sortDescData (t.rows.filterMap (fun r => r.dataTransacao.map (normalizeRow t r)))

/-! ### Filter engine (lines 154-207) -/

/-- The sidebar filter selection. -/
structure FilterSpec where
  mesSelecionado : Option String
  bancosSelecionados : List String
  categoriasSelecionadas : List String
  statusSelecionados : List String

/-- The conjunction of the four filter conditions (lines 200-205) for a
selected month key `m`. -/
def rowMatches (spec : FilterSpec) (m : String) (e : Entry) : Bool :=
  mesReferencia e.dataTransacao == m &&
  spec.bancosSelecionados.contains e.instituicao &&
  spec.categoriasSelecionadas.contains e.categoriaMacro &&
  spec.statusSelecionados.contains e.status

/-- `df_filtrado` (lines 199-207): with a selected month, the four-way
conjunction filter; with none, the ledger passes through unfiltered. -/
def dfFiltrado (spec : FilterSpec) (l : List Entry) : List Entry :=
  match spec.mesSelecionado with
  | some m => l.filter (rowMatches spec m)
  | none => l

/-! ### Signed value and carry-over base (lines 234-255) -/

/-- `Valor_Sinal` / `Valor_Real` (lines 243, 308, 461): the signed value
of an entry — `+Valor` for `'Receita'`, `-Valor` otherwise. -/
def valorSinal (e : Entry) : ℚ :=
  if e.tipoMovimento = "Receita" then e.valor else -e.valor

/-- `df_passado` (lines 248-253): entries dated strictly before the first
day of the selected month that pass the institution/category/status
selections; the month filter plays no part. -/
def dfPassado (spec : FilterSpec) (l : List Entry) (ano mes : Nat) : List Entry :=
  l.filter (fun e =>
    dateLtB e.dataTransacao ⟨ano, mes, 1⟩ &&
    spec.bancosSelecionados.contains e.instituicao &&
    spec.categoriasSelecionadas.contains e.categoriaMacro &&
    spec.statusSelecionados.contains e.status)

/-- `saldo_anterior` (lines 234-255): `0.0` unless cumulative mode is on
and a month is selected; then the signed sum over `df_passado`.  The code
carries the selected month as the `"%Y-%m"` string and re-parses it with
`split('-')` and `int`; we carry the (ano, mes) pair it decodes to. -/
def saldoAnterior (usarAcumulado : Bool) (mesSel : Option (Nat × Nat))
    (spec : FilterSpec) (l : List Entry) : ℚ :=
  match usarAcumulado, mesSel with
  | true, some (ano, mes) => ((dfPassado spec l ano mes).map valorSinal).sum
  | _, _ => 0

/-! ### Running balance (tab1, lines 305-316) and timeline (tab3, 454-502) -/

/-- `cumsum() + base`: each entry annotated with its running balance,
seeded at `base`. -/
def annotate (base : ℚ) : List Entry → List (Entry × ℚ)
  | [] => []
  | e :: rest => (e, base + valorSinal e) :: annotate (base + valorSinal e) rest

/-- Tab1 `Saldo_Acumulado` (lines 305-316): ascending sort, signed value,
then `cumsum() + saldo_anterior` in cumulative mode and plain `cumsum()`
otherwise. -/
def saldoAcumuladoTab1 (usarAcumulado : Bool) (saldoAnt : ℚ)
    (dfF : List Entry) : List (Entry × ℚ) :=
  annotate (if usarAcumulado then saldoAnt else 0) (sortAscData dfF)

/-- Tab3 steps 1-3 (lines 456-468): ascending chronological copy carrying
`Saldo_Acumulado_Ate_Aqui = cumsum(Valor_Real) + base_inicial`. -/
def dfCalc (baseInicial : ℚ) (dfF : List Entry) : List (Entry × ℚ) :=
  annotate baseInicial (sortAscData dfF)

/-- Tab3 step 4 (line 472): the descending presentation order. -/
def dfTimeline (baseInicial : ℚ) (dfF : List Entry) : List (Entry × ℚ) :=
  (dfCalc baseInicial dfF).reverse

/-- First-occurrence deduplication (`pd.unique` keeps first occurrences
in order). -/
def eraseDupsKeepFirst : List Date → List Date
  | [] => []
  | d :: rest => d :: (eraseDupsKeepFirst rest).filter (fun x => x != d)

/-- Tab3 step 5 (line 475): `dias_unicos`, the distinct days in order of
first appearance in the descending timeline. -/
def diasUnicos (baseInicial : ℚ) (dfF : List Entry) : List Date :=
  eraseDupsKeepFirst ((dfTimeline baseInicial dfF).map (fun p => p.1.dataTransacao))

/-- Tab3 loop step A (line 492): this day's rows of the descending
timeline. -/
def dfDia (baseInicial : ℚ) (dfF : List Entry) (dia : Date) : List (Entry × ℚ) :=
  (dfTimeline baseInicial dfF).filter (fun p => p.1.dataTransacao == dia)

/-- Tab3 loop (line 502): the closing balance reported for a day — the
`Saldo_Acumulado_Ate_Aqui` of the *first* row of the day's group in the
descending order (`df_dia.iloc[0]`), not a day-local recomputation. -/
def saldoTotalAcumulado (baseInicial : ℚ) (dfF : List Entry) (dia : Date) : Option ℚ :=
  ((dfDia baseInicial dfF dia).head?).map (fun p => p.2)

/-! ### KPI sums (lines 260-280) -/

def totalReceita (l : List Entry) : ℚ :=
  ((l.filter (fun e => e.tipoMovimento == "Receita")).map (fun e => e.valor)).sum

def totalDespesa (l : List Entry) : ℚ :=
  ((l.filter (fun e => e.tipoMovimento == "Despesa")).map (fun e => e.valor)).sum

def despesaFutura (l : List Entry) : ℚ :=
  ((l.filter (fun e => e.tipoMovimento == "Despesa" && e.status == "Projetado")).map
    (fun e => e.valor)).sum

/-! ### Save handler (lines 617-635) -/

/-- `df.update(df_edicao)` (line 622): each edited row overwrites the
ledger row at its original index. -/
def applyEdits (ledger : List Entry) (edits : List (Nat × Entry)) : List Entry :=
  edits.foldl (fun acc p => acc.set p.1 p.2) ledger

/-- What a save cycle leaves behind: the in-memory ledger, what reached
the sink, and whether an error was reported. -/
structure SaveOutcome where
  memLedger : List Entry
  sinkLedger : Option (List Entry)
  error : Bool
deriving DecidableEq, Repr

/-- The save handler (lines 617-635): the edits are merged into the
in-memory ledger first (`df.update` mutates `df` itself), then the sink
write is attempted; on failure an error is reported and nothing reaches
the sink. -/
def saveHandler (ledger : List Entry) (edits : List (Nat × Entry))
    (sinkOk : Bool) : SaveOutcome :=
  let updated := applyEdits ledger edits
  if sinkOk then ⟨updated, some updated, false⟩
  else ⟨updated, none, true⟩

/-! ### Concrete fixtures used by the witness theorems -/

/-- An income entry of 100 on 2024-02-10. -/
def w1 : Entry := ⟨⟨2024, 2, 10⟩, 100, "Receita", "Realizado", "Nubank", "Casa", "salario"⟩

/-- An expense entry of 50 on 2024-02-05. -/
def w2 : Entry := ⟨⟨2024, 2, 5⟩, 50, "Despesa", "Realizado", "Nubank", "Casa", "mercado"⟩

/-- An income entry of 200 on 2024-01-15, prior to February. -/
def w3 : Entry := ⟨⟨2024, 1, 15⟩, 200, "Receita", "Realizado", "Nubank", "Casa", "bonus"⟩

/-- A filter selection: February 2024, with every classification chosen. -/
def specW : FilterSpec :=
  ⟨some (mesReferencia ⟨2024, 2, 1⟩), ["Nubank"], ["Casa"], ["Realizado"]⟩

/-- A pending projected expense, as the save handler edits it. -/
def w9 : Entry := ⟨⟨2024, 3, 1⟩, 10, "Despesa", "Projetado", "Nubank", "Casa", "conta"⟩

/-- The same row after the user marks it `'Realizado'`. -/
def w9e : Entry := ⟨⟨2024, 3, 1⟩, 10, "Despesa", "Realizado", "Nubank", "Casa", "conta"⟩

/-- A second ledger row the save handler does not touch. -/
def w9b : Entry := ⟨⟨2024, 3, 2⟩, 20, "Receita", "Realizado", "Nubank", "Casa", "pix"⟩

/-- A raw row with a parseable date. -/
def rOk : RawRow :=
  ⟨some ⟨2024, 1, 5⟩, .str "1.000,50", some "Receita", some "Realizado",
    some "Nubank", some "Casa", some "x"⟩

/-- A raw row whose date cell failed to parse (NaT) but whose amount and
type are valid. -/
def rBad : RawRow :=
  ⟨none, .str "200", some "Despesa", some "Projetado",
    some "Nubank", some "Casa", some "y"⟩

/-- A two-row raw table with every column present and a textual `Valor`. -/
def tW : RawTable := ⟨[rOk, rBad], true, true, true, true, true, true⟩

/-! ### Running-balance lemmas -/

theorem annotate_map_fst (l : List Entry) : ∀ B : ℚ,
    (annotate B l).map Prod.fst = l := by
  induction l with
  | nil => intro B; rfl
  | cons e rest ih => intro B; simp [annotate, ih]

theorem annotate_snd_getElem? (l : List Entry) : ∀ (B : ℚ) (i : Nat), i < l.length →
    ((annotate B l).map Prod.snd)[i]? =
      some (B + ((l.take (i + 1)).map valorSinal).sum) := by
  induction l with
  | nil => intro B i h; simp at h
  | cons e rest ih =>
    intro B i h
    cases i with
    | zero => simp [annotate]
    | succ i =>
      have hrec := ih (B + valorSinal e) i (by simpa using h)
      simp only [annotate, List.map_cons, List.getElem?_cons_succ, hrec,
        List.take_succ_cons, List.sum_cons, Option.some.injEq]
      ring

theorem annotate_getLast?_snd (l : List Entry) : ∀ B : ℚ, l ≠ [] →
    ((annotate B l).getLast?).map Prod.snd = some (B + (l.map valorSinal).sum) := by
  induction l with
  | nil => intro B h; exact absurd rfl h
  | cons e rest ih =>
    intro B _
    cases rest with
    | nil => simp [annotate]
    | cons f rest2 =>
      have hrec := ih (B + valorSinal e) (by simp)
      show ((e, B + valorSinal e) :: annotate (B + valorSinal e) (f :: rest2)).getLast?.map Prod.snd = _
      rw [show annotate (B + valorSinal e) (f :: rest2) =
        (f, B + valorSinal e + valorSinal f) :: annotate (B + valorSinal e + valorSinal f) rest2 from rfl]
      rw [List.getLast?_cons_cons]
      rw [show (f, B + valorSinal e + valorSinal f) :: annotate (B + valorSinal e + valorSinal f) rest2 =
        annotate (B + valorSinal e) (f :: rest2) from rfl]
      rw [hrec]
      simp only [List.map_cons, List.sum_cons, Option.some.injEq]
      ring

/-- C1: for every filtered subset and carry-over base B (0 in isolated
mode), after the ascending sort and running-balance annotation of tab1,
the balance at position i is B plus the prefix sum of Signed Amount
through position i, and the balance of the last entry is B plus the sum
of Signed Amount over the whole subset. -/
theorem c1_running_balance (usar : Bool) (saldoAnt : ℚ) (sub : List Entry) :
    (∀ i, i < (sortAscData sub).length →
      ((saldoAcumuladoTab1 usar saldoAnt sub).map Prod.snd)[i]? =
        some ((if usar then saldoAnt else 0) +
          (((sortAscData sub).take (i + 1)).map valorSinal).sum)) ∧
    (sub ≠ [] →
      ((saldoAcumuladoTab1 usar saldoAnt sub).getLast?).map Prod.snd =
        some ((if usar then saldoAnt else 0) + (sub.map valorSinal).sum)) := by
  constructor
  · intro i hi
    exact annotate_snd_getElem? (sortAscData sub) (if usar then saldoAnt else 0) i hi
  · intro hne
    have hnesort : sortAscData sub ≠ [] := by
      intro hcon
      have := @List.length_mergeSort Entry
        (fun a b => dateLeB a.dataTransacao b.dataTransacao) sub
      rw [show sub.mergeSort (fun a b => dateLeB a.dataTransacao b.dataTransacao) = sortAscData sub from rfl, hcon] at this
      exact hne (List.length_eq_zero.mp this.symm)
    rw [show saldoAcumuladoTab1 usar saldoAnt sub =
      annotate (if usar then saldoAnt else 0) (sortAscData sub) from rfl]
    rw [annotate_getLast?_snd (sortAscData sub) _ hnesort]
    have hperm : (sortAscData sub).Perm sub := List.mergeSort_perm sub _
    rw [((hperm.map valorSinal).sum_eq : ((sortAscData sub).map valorSinal).sum = _)]

/-- Witness for C1 at a concrete two-entry February subset with
carry-over base 500. -/
theorem c1_running_balance_witness :
    (((saldoAcumuladoTab1 true 500 [w1, w2]).map Prod.snd)[0]? =
      some ((if true then (500 : ℚ) else 0) +
        (((sortAscData [w1, w2]).take 1).map valorSinal).sum)) ∧
    (((saldoAcumuladoTab1 true 500 [w1, w2]).getLast?).map Prod.snd =
      some ((if true then (500 : ℚ) else 0) + (([w1, w2].map valorSinal).sum))) :=
  ⟨(c1_running_balance true 500 [w1, w2]).1 0 (by simp [sortAscData]),
   (c1_running_balance true 500 [w1, w2]).2 (by simp)⟩

/-- On a chronologically sorted list, the running-balance annotation of
the last entry of day `d` is the base plus the signed sum over all
entries dated up to and including `d`. -/
theorem annotate_day_closing (d : Date) :
    ∀ (l : List Entry) (B : ℚ),
      l.Pairwise (fun a b => dateLeB a.dataTransacao b.dataTransacao = true) →
      (∃ e ∈ l, e.dataTransacao = d) →
      (((annotate B l).filter (fun p => p.1.dataTransacao == d)).getLast?).map Prod.snd =
        some (B + ((l.filter (fun e => dateLeB e.dataTransacao d)).map valorSinal).sum) := by
  intro l
  induction l with
  | nil =>
    intro B _ hex
    simp at hex
  | cons e rest ih =>
    intro B hp hex
    have hpe := (List.pairwise_cons.mp hp).1
    have hpt := (List.pairwise_cons.mp hp).2
    by_cases hrest : ∃ r ∈ rest, r.dataTransacao = d
    · obtain ⟨r, hr, hrd⟩ := hrest
      have hed : dateLeB e.dataTransacao d = true := by
        have := hpe r hr
        rwa [hrd] at this
      have hrec := ih (B + valorSinal e) hpt ⟨r, hr, hrd⟩
      have hfne : (annotate (B + valorSinal e) rest).filter
          (fun p => p.1.dataTransacao == d) ≠ [] := by
        intro hcon
        rw [hcon] at hrec
        simp at hrec
      have hstep : ((annotate B (e :: rest)).filter
          (fun p => p.1.dataTransacao == d)).getLast? =
          ((annotate (B + valorSinal e) rest).filter
            (fun p => p.1.dataTransacao == d)).getLast? := by
        rw [show annotate B (e :: rest) =
          (e, B + valorSinal e) :: annotate (B + valorSinal e) rest from rfl]
        rw [List.filter_cons]
        by_cases hid : (e.dataTransacao == d) = true
        · rw [if_pos hid]
          cases hF : (annotate (B + valorSinal e) rest).filter
              (fun p => p.1.dataTransacao == d) with
          | nil => exact absurd hF hfne
          | cons q qs => exact List.getLast?_cons_cons
        · rw [if_neg hid]
      rw [hstep, hrec]
      rw [List.filter_cons_of_pos (by simpa using hed)]
      simp only [List.map_cons, List.sum_cons, Option.some.injEq]
      ring
    · obtain ⟨x, hx, hxd⟩ := hex
      have hxe : x = e := by
        rcases List.mem_cons.mp hx with h | h
        · exact h
        · exact absurd ⟨x, h, hxd⟩ hrest
      subst hxe
      have hF : (annotate (B + valorSinal x) rest).filter
          (fun p => p.1.dataTransacao == d) = [] := by
        rw [List.filter_eq_nil_iff]
        intro p hpmem
        have hp1 : p.1 ∈ rest := by
          have := List.mem_map_of_mem Prod.fst hpmem
          rwa [annotate_map_fst rest (B + valorSinal x)] at this
        intro hcon
        exact hrest ⟨p.1, hp1, by simpa using hcon⟩
      have hrestle : rest.filter (fun e => dateLeB e.dataTransacao d) = [] := by
        rw [List.filter_eq_nil_iff]
        intro r hr hcon
        have h1 : dateLeB d r.dataTransacao = true := by
          have := hpe r hr
          rwa [hxd] at this
        have : r.dataTransacao = d := dateLeB_antisymm (by simpa using hcon) h1
        exact hrest ⟨r, hr, this⟩
      rw [show annotate B (x :: rest) =
        (x, B + valorSinal x) :: annotate (B + valorSinal x) rest from rfl]
      rw [List.filter_cons, if_pos (by simpa using hxd), hF]
      rw [List.filter_cons_of_pos (by simp [hxd, dateLeB_refl]), hrestle]
      simp

/-- The list the timeline is built from is sorted ascending by date. -/
theorem sortAscData_pairwise (l : List Entry) :
    (sortAscData l).Pairwise (fun a b => dateLeB a.dataTransacao b.dataTransacao = true) :=
  @List.sorted_mergeSort Entry
    (fun a b => dateLeB a.dataTransacao b.dataTransacao)
    (fun a b c hab hbc => dateLeB_trans hab hbc)
    (fun a b => dateLeB_total a.dataTransacao b.dataTransacao) l

/-- C3: the closing balance tab3 reports for a day `d` present in the
subset — the running balance of the first row of the day's group in the
descending timeline — is the running-balance annotation of the
chronologically last entry of day `d`, equal to the carry-over base plus
the signed prefix sum through the end of day `d`; it is read off the one
ascending annotation pass, not recomputed day-locally. -/
theorem c3_daily_closing (dfF : List Entry) (B : ℚ) (d : Date)
    (hd : ∃ e ∈ dfF, e.dataTransacao = d) :
    saldoTotalAcumulado B dfF d =
      (((annotate B (sortAscData dfF)).filter
        (fun p => p.1.dataTransacao == d)).getLast?).map Prod.snd ∧
    saldoTotalAcumulado B dfF d =
      some (B + ((dfF.filter (fun e => dateLeB e.dataTransacao d)).map valorSinal).sum) := by
  have hperm : (sortAscData dfF).Perm dfF := List.mergeSort_perm dfF _
  have hshape : saldoTotalAcumulado B dfF d =
      (((annotate B (sortAscData dfF)).filter
        (fun p => p.1.dataTransacao == d)).getLast?).map Prod.snd := by
    show (((annotate B (sortAscData dfF)).reverse.filter
      (fun p => p.1.dataTransacao == d)).head?).map Prod.snd = _
    rw [List.filter_reverse, List.head?_reverse]
  refine ⟨hshape, ?_⟩
  rw [hshape]
  rw [annotate_day_closing d (sortAscData dfF) B (sortAscData_pairwise dfF)
    ⟨hd.choose, hperm.mem_iff.mpr hd.choose_spec.1, hd.choose_spec.2⟩]
  rw [((hperm.filter (fun e => dateLeB e.dataTransacao d)).map valorSinal).sum_eq]

/-- Witness for C3: the February subset `[w1, w2]` with base 500,
evaluated at day 2024-02-10. -/
theorem c3_daily_closing_witness :
    saldoTotalAcumulado 500 [w1, w2] ⟨2024, 2, 10⟩ =
      some (500 + (([w1, w2].filter
        (fun e => dateLeB e.dataTransacao ⟨2024, 2, 10⟩)).map valorSinal).sum) :=
  (c3_daily_closing [w1, w2] 500 ⟨2024, 2, 10⟩ ⟨w1, by decide, by decide⟩).2

/-- C2: in cumulative mode with a selected month, the carry-over base is
the signed sum over exactly the entries dated strictly before the first
calendar day of the selected month that pass the institution, category
and status selections (the month filter is ignored); "strictly before the
first day" coincides with "in an earlier calendar month" for day-valid
dates; with cumulative mode off (or no month selected) the base is 0. -/
theorem c2_saldo_anterior (spec : FilterSpec) (l : List Entry) (ano mes : Nat) :
    (∀ e, e ∈ dfPassado spec l ano mes ↔
      (e ∈ l ∧ dateLtB e.dataTransacao ⟨ano, mes, 1⟩ = true ∧
        e.instituicao ∈ spec.bancosSelecionados ∧
        e.categoriaMacro ∈ spec.categoriasSelecionadas ∧
        e.status ∈ spec.statusSelecionados)) ∧
    (∀ e : Entry, 1 ≤ e.dataTransacao.day →
      (dateLtB e.dataTransacao ⟨ano, mes, 1⟩ = true ↔
        (e.dataTransacao.year < ano ∨
          (e.dataTransacao.year = ano ∧ e.dataTransacao.month < mes)))) ∧
    (saldoAnterior true (some (ano, mes)) spec l =
      ((dfPassado spec l ano mes).map valorSinal).sum) ∧
    (∀ ms, saldoAnterior false ms spec l = 0) ∧
    (saldoAnterior true none spec l = 0) := by
  refine ⟨?_, ?_, rfl, fun ms => rfl, rfl⟩
  · intro e
    rw [dfPassado, List.mem_filter]
    simp only [Bool.and_eq_true, List.contains_iff_exists_mem_beq]
    constructor
    · rintro ⟨hmem, ⟨⟨hlt, hb⟩, hc⟩, hs⟩
      refine ⟨hmem, hlt, ?_, ?_, ?_⟩
      · obtain ⟨x, hx, hbeq⟩ := hb
        rwa [show e.instituicao = x from beq_iff_eq.mp hbeq]
      · obtain ⟨x, hx, hbeq⟩ := hc
        rwa [show e.categoriaMacro = x from beq_iff_eq.mp hbeq]
      · obtain ⟨x, hx, hbeq⟩ := hs
        rwa [show e.status = x from beq_iff_eq.mp hbeq]
    · rintro ⟨hmem, hlt, hb, hc, hs⟩
      exact ⟨hmem, ⟨⟨hlt, ⟨_, hb, beq_iff_eq.mpr rfl⟩⟩, ⟨_, hc, beq_iff_eq.mpr rfl⟩⟩,
        ⟨_, hs, beq_iff_eq.mpr rfl⟩⟩
  · intro e hday
    rw [dateLtB_iff]
    rcases e with ⟨⟨ey, em, ed⟩, v, t, s, i, c, ds⟩
    simp only at hday ⊢
    omega

/-- Witness for C2: with February 2024 selected, the January entry is in
the prior subset, the February entry is not, and its date is recognized
as strictly before 2024-02-01. -/
theorem c2_saldo_anterior_witness :
    w3 ∈ dfPassado specW [w1, w2, w3] 2024 2 ∧
    w1 ∉ dfPassado specW [w1, w2, w3] 2024 2 ∧
    dateLtB w3.dataTransacao ⟨2024, 2, 1⟩ = true := by
  have h := c2_saldo_anterior specW [w1, w2, w3] 2024 2
  refine ⟨?_, ?_, ?_⟩
  · exact (h.1 w3).mpr (by decide)
  · intro hmem
    have := (h.1 w1).mp hmem
    exact absurd this.2.1 (by decide)
  · exact (h.2.1 w3 (by decide)).mpr (by decide)

/-- C8: with a selected month key (derived from a month-valid date), the
filter selects exactly the ledger entries in that calendar Year-Month
(string equality of the derived key coincides with calendar-month
equality) that pass the three set-membership selections; it returns the
empty list when no entry falls in that calendar month; and filtering is
idempotent for every specification. -/
theorem c8_month_filter (l : List Entry) (spec : FilterSpec) (d0 : Date)
    (hm : spec.mesSelecionado = some (mesReferencia d0))
    (hd0 : d0.month ≤ 12)
    (hl : ∀ e ∈ l, e.dataTransacao.month ≤ 12) :
    (∀ e, e ∈ dfFiltrado spec l ↔
      (e ∈ l ∧ (e.dataTransacao.year = d0.year ∧ e.dataTransacao.month = d0.month) ∧
        e.instituicao ∈ spec.bancosSelecionados ∧
        e.categoriaMacro ∈ spec.categoriasSelecionadas ∧
        e.status ∈ spec.statusSelecionados)) ∧
    ((∀ e ∈ l, ¬(e.dataTransacao.year = d0.year ∧ e.dataTransacao.month = d0.month)) →
      dfFiltrado spec l = []) ∧
    (∀ (spec2 : FilterSpec) (l2 : List Entry),
      dfFiltrado spec2 (dfFiltrado spec2 l2) = dfFiltrado spec2 l2) := by
  have hkey : ∀ e ∈ l, ((mesReferencia e.dataTransacao == mesReferencia d0) = true ↔
      (e.dataTransacao.year = d0.year ∧ e.dataTransacao.month = d0.month)) := by
    intro e hmem
    rw [beq_iff_eq]
    exact mesReferencia_eq_iff (hl e hmem) hd0
  refine ⟨?_, ?_, ?_⟩
  · intro e
    rw [show dfFiltrado spec l = l.filter (rowMatches spec (mesReferencia d0)) by
      rw [dfFiltrado, hm]]
    rw [List.mem_filter, rowMatches]
    simp only [Bool.and_eq_true, List.contains_iff_exists_mem_beq]
    constructor
    · rintro ⟨hmem, ⟨⟨⟨hkeq, hb⟩, hc⟩, hs⟩⟩
      refine ⟨hmem, (hkey e hmem).mp hkeq, ?_, ?_, ?_⟩
      · obtain ⟨x, hx, hbeq⟩ := hb
        rwa [show e.instituicao = x from beq_iff_eq.mp hbeq]
      · obtain ⟨x, hx, hbeq⟩ := hc
        rwa [show e.categoriaMacro = x from beq_iff_eq.mp hbeq]
      · obtain ⟨x, hx, hbeq⟩ := hs
        rwa [show e.status = x from beq_iff_eq.mp hbeq]
    · rintro ⟨hmem, hym, hb, hc, hs⟩
      exact ⟨hmem, ⟨⟨⟨(hkey e hmem).mpr hym, ⟨_, hb, beq_iff_eq.mpr rfl⟩⟩,
        ⟨_, hc, beq_iff_eq.mpr rfl⟩⟩, ⟨_, hs, beq_iff_eq.mpr rfl⟩⟩⟩
  · intro hnone
    rw [show dfFiltrado spec l = l.filter (rowMatches spec (mesReferencia d0)) by
      rw [dfFiltrado, hm]]
    rw [List.filter_eq_nil_iff]
    intro e hmem hcon
    rw [rowMatches] at hcon
    simp only [Bool.and_eq_true] at hcon
    exact hnone e hmem ((hkey e hmem).mp hcon.1.1.1)
  · intro spec2 l2
    cases hms : spec2.mesSelecionado with
    | none => simp [dfFiltrado, hms]
    | some m => simp [dfFiltrado, hms, List.filter_filter]

/-- Witness for C8: February 2024 selected over a two-entry ledger keeps
the February entry and drops the January one. -/
theorem c8_month_filter_witness :
    w1 ∈ dfFiltrado specW [w1, w3] ∧ w3 ∉ dfFiltrado specW [w1, w3] := by
  have h := c8_month_filter [w1, w3] specW ⟨2024, 2, 1⟩ rfl (by decide) (by decide)
  constructor
  · exact (h.1 w1).mpr (by decide)
  · intro hmem
    exact absurd ((h.1 w3).mp hmem).2.1 (by decide)

/-! ### Amount parsing lemmas -/

theorem parseUnsigned_nonneg : ∀ (l : List Char) (q : ℚ),
    parseUnsigned l = some q → 0 ≤ q := by
  intro l q h
  simp only [parseUnsigned] at h
  split at h
  · split at h
    · injection h with hq
      rw [← hq]
      exact Nat.cast_nonneg _
    · exact absurd h (by simp)
  · split at h
    · injection h with hq
      rw [← hq]
      exact add_nonneg (Nat.cast_nonneg _)
        (div_nonneg (Nat.cast_nonneg _) (by positivity))
    · exact absurd h (by simp)

theorem toNumeric_nonneg {s : String} (hs : ∀ c ∈ s.data, c ≠ '-') :
    ∀ q : ℚ, toNumeric s = some q → 0 ≤ q := by
  intro q h
  rw [toNumeric] at h
  split at h
  · rename_i rest heq
    exact absurd rfl (hs '-' (by rw [heq]; exact List.mem_cons_self _ _))
  · rename_i rest heq
    exact parseUnsigned_nonneg rest q h
  · exact parseUnsigned_nonneg _ q h

theorem stripDots_no_dash {s : String} (hs : ∀ c ∈ s.data, c ≠ '-') :
    ∀ c ∈ (stripDots s).data, c ≠ '-' := by
  intro c hc
  exact hs c (List.mem_of_mem_filter hc)

theorem commaToDot_no_dash {s : String} (hs : ∀ c ∈ s.data, c ≠ '-') :
    ∀ c ∈ (commaToDot s).data, c ≠ '-' := by
  intro c hc
  obtain ⟨a, ha, hac⟩ := List.mem_map.mp (by simpa [commaToDot] using hc)
  by_cases hcomma : a = ','
  · rw [← hac, hcomma]
    decide
  · rw [← hac, if_neg hcomma]
    exact hs a ha

/-- C4 counterexample: a textual amount cell `"-50"` normalizes to the
negative value −50, violating `amount ≥ 0`. -/
theorem c4_counterexample :
    normValorCell true (Cell.str "-50") = -50 ∧
    normValorCell true (Cell.str "-50") < 0 := by
  have h : normValorCell true (Cell.str "-50") = -((50 : ℕ) : ℚ) := rfl
  constructor
  · rw [h]; norm_num
  · rw [h]; norm_num

/-- C4 (amended): the normalized amount is ≥ 0 for every cell whose text
carries no minus sign (blanks stringify to `"nan"` and coerce to 0, parse
failures coerce to 0) and for every numeric cell that is itself ≥ 0 — the
code applies no absolute value, so a negative raw value stays negative —
and the direction used by the balance engine is derived from
`movement_type` alone via `Valor_Sinal`, never stored in the amount. -/
theorem c4_amended :
    (∀ c : Cell, (∀ ch ∈ (astypeStr c).data, ch ≠ '-') →
      0 ≤ normValorCell true c) ∧
    (∀ q : ℚ, 0 ≤ q → 0 ≤ normValorCell false (Cell.num q)) ∧
    (∀ e : Entry, e.tipoMovimento = "Receita" → valorSinal e = e.valor) ∧
    (∀ e : Entry, e.tipoMovimento ≠ "Receita" → valorSinal e = -e.valor) := by
  refine ⟨?_, fun q hq => hq, ?_, ?_⟩
  · intro c hch
    rw [show normValorCell true c =
      (toNumeric (commaToDot (stripDots (astypeStr c)))).getD 0 from rfl]
    cases htn : toNumeric (commaToDot (stripDots (astypeStr c))) with
    | none => simp
    | some q =>
      simp only [Option.getD_some]
      exact toNumeric_nonneg (commaToDot_no_dash (stripDots_no_dash hch)) q htn
  · intro e he; simp [valorSinal, he]
  · intro e he; simp [valorSinal, he]

/-- Witness for the amended C4 at a locale-formatted cell and a numeric
cell. -/
theorem c4_amended_witness :
    (0 ≤ normValorCell true (Cell.str "1.000,50")) ∧
    (0 ≤ normValorCell false (Cell.num 7)) :=
  ⟨c4_amended.1 (Cell.str "1.000,50") (by decide),
   c4_amended.2.1 7 (by norm_num)⟩

/-- C6: amount normalization parses `"1.234,56"` (dot thousands, comma
decimal) to 1234.56; numeric source cells pass through unchanged; parse
failures coerce to 0.0 instead of dropping the row; and the claim's
scenario amounts `"1.000,50"` and `"200"` normalize to 1000.50 and
200.0. -/
theorem c6_amount_parsing :
    (normValorCell true (Cell.str "1.234,56") = 1234.56) ∧
    (∀ q : ℚ, normValorCell false (Cell.num q) = q) ∧
    (∀ c : Cell, toNumeric (commaToDot (stripDots (astypeStr c))) = none →
      normValorCell true c = 0) ∧
    (normValorCell true (Cell.str "1.000,50") = 1000.50) ∧
    (normValorCell true (Cell.str "200") = 200) := by
  refine ⟨?_, fun q => rfl, ?_, ?_, rfl⟩
  · have h : normValorCell true (Cell.str "1.234,56") = (1234 : ℚ) + 56 / 10 ^ 2 := rfl
    rw [h]; norm_num
  · intro c hc
    rw [show normValorCell true c =
      (toNumeric (commaToDot (stripDots (astypeStr c)))).getD 0 from rfl, hc]
    rfl
  · have h : normValorCell true (Cell.str "1.000,50") = (1000 : ℚ) + 50 / 10 ^ 2 := rfl
    rw [h]; norm_num

/-- Witness for C6 at an unparseable textual amount, which coerces to 0. -/
theorem c6_amount_parsing_witness :
    toNumeric (commaToDot (stripDots (astypeStr (Cell.str "abc")))) = none ∧
    normValorCell true (Cell.str "abc") = 0 :=
  ⟨by decide, c6_amount_parsing.2.2.1 (Cell.str "abc") (by decide)⟩

/-- C10: for a textual amount column the code removes every dot and then
turns commas into dots before parsing, so a text cell using a dot as its
decimal separator — `"1000.50"` — normalizes to 100050, one hundred times
the intended value, while the same value in a numeric cell passes through
unchanged. -/
theorem c10_dot_stripped :
    (∀ s : String, normValorCell true (Cell.str s) =
      (toNumeric (commaToDot (stripDots s))).getD 0) ∧
    (stripDots "1000.50" = "100050") ∧
    (normValorCell true (Cell.str "1000.50") = 100050) ∧
    (normValorCell true (Cell.str "1000.50") = 100 * 1000.50) ∧
    (normValorCell false (Cell.num 1000.50) = 1000.50) := by
  refine ⟨fun s => rfl, by decide, rfl, ?_, rfl⟩
  have h : normValorCell true (Cell.str "1000.50") = ((100050 : ℕ) : ℚ) := rfl
  rw [h]; norm_num

/-! ### Normalizer and save-handler theorems -/

theorem filterMap_length_countP (f : RawRow → Option Entry) :
    ∀ l : List RawRow, (l.filterMap f).length = l.countP (fun r => (f r).isSome) := by
  intro l
  induction l with
  | nil => rfl
  | cons r rest ih =>
    rw [List.filterMap_cons, List.countP_cons]
    cases hf : f r with
    | none => simp [hf, ih]
    | some e => simp [hf, ih]

/-- C5: the normalized ledger contains exactly one entry per raw row
whose date cell parsed (`dropna` removes the rest before any downstream
computation), every surviving entry is the cell-wise normalization of a
raw row whose date parsed to the entry's date, and the ledger length
reflects the drop. -/
theorem c5_invalid_dates_dropped (t : RawTable) :
    ((normalizeTable t).length = t.rows.countP (fun r => r.dataTransacao.isSome)) ∧
    (∀ e ∈ normalizeTable t, ∃ r ∈ t.rows,
      r.dataTransacao = some e.dataTransacao ∧ e = normalizeRow t r e.dataTransacao) := by
  constructor
  · rw [show normalizeTable t =
      ((t.rows.filterMap (fun r => r.dataTransacao.map (normalizeRow t r))).mergeSort
        (fun a b => dateLeB a.dataTransacao b.dataTransacao)).reverse
      from rfl]
    rw [List.length_reverse, List.length_mergeSort, filterMap_length_countP]
    congr 1
    funext r
    cases h : r.dataTransacao <;> simp [h]
  · intro e he
    have hmem : e ∈ t.rows.filterMap (fun r => r.dataTransacao.map (normalizeRow t r)) := by
      have h1 : e ∈ sortAscData (t.rows.filterMap
          (fun r => r.dataTransacao.map (normalizeRow t r))) :=
        List.mem_reverse.mp he
      exact (List.mergeSort_perm _ _).mem_iff.mp h1
    obtain ⟨r, hr, hfr⟩ := List.mem_filterMap.mp hmem
    cases hd : r.dataTransacao with
    | none => rw [hd] at hfr; exact absurd hfr (by simp)
    | some d =>
      rw [hd] at hfr
      have he2 : normalizeRow t r d = e := by simpa using hfr
      have hdate : e.dataTransacao = d := by rw [← he2]; exact rfl
      exact ⟨r, hr, by rw [hd, hdate], by rw [hdate, he2]⟩

/-- Witness for C5: of the two raw rows of `tW`, only the one with a
parseable date survives normalization. -/
theorem c5_invalid_dates_dropped_witness : (normalizeTable tW).length = 1 := by
  rw [(c5_invalid_dates_dropped tW).1]
  decide

/-- C7: a text column that is absent from the schema is filled with the
sentinel `"Não Informado"` for every row; but when the column is present,
a blank cell is stringified to `"nan"` by `astype(str)` before
`fillna("-")` runs, so the dash default never happens — shown both
cell-wise and through a full normalized row with a blank institution
cell. -/
theorem c7_text_defaults :
    (normTextCell true none = "nan") ∧ ((("nan" : String) == "-") = false) ∧
    (∀ s, normTextCell true (some s) = s) ∧
    (∀ c, normTextCell false c = "Não Informado") ∧
    ((normalizeRow tW ⟨some ⟨2024, 1, 7⟩, Cell.str "50", some "Despesa",
        some "Realizado", none, some "Casa", some "luz"⟩ ⟨2024, 1, 7⟩).instituicao
      = "nan") := by
  exact ⟨rfl, by decide, fun s => rfl, fun c => rfl, rfl⟩

theorem applyEdits_untouched (edits : List (Nat × Entry)) :
    ∀ (ledger : List Entry) (i : Nat), (∀ p ∈ edits, p.1 ≠ i) →
      (applyEdits ledger edits)[i]? = ledger[i]? := by
  induction edits with
  | nil => intro ledger i h; rfl
  | cons p ps ih =>
    intro ledger i h
    rw [show applyEdits ledger (p :: ps) = applyEdits (ledger.set p.1 p.2) ps from rfl]
    rw [ih (ledger.set p.1 p.2) i (fun q hq => h q (List.mem_cons_of_mem p hq))]
    exact List.getElem?_set_ne (h p (List.mem_cons_self p ps))

/-- C9 counterexample: with a failing sink, the handler still reports an
error and writes nothing, but the in-memory ledger *has* been mutated by
`df.update` before the sink call — it no longer equals the prior ledger. -/
theorem c9_counterexample :
    ((saveHandler [w9] [(0, w9e)] false).error = true) ∧
    ((saveHandler [w9] [(0, w9e)] false).sinkLedger = none) ∧
    ((saveHandler [w9] [(0, w9e)] false).memLedger = [w9e]) ∧
    (([w9e] == [w9] : Bool) = false) := by
  decide

/-- C9 (amended): on a failed sink write the cycle reports an error and
nothing reaches the sink, but the edits have already been merged into the
in-memory ledger itself (`df.update` mutates `df`, not a copy); rows
outside the edited index set are untouched; on success the sink receives
exactly the merged ledger. -/
theorem c9_amended (ledger : List Entry) (edits : List (Nat × Entry)) :
    ((saveHandler ledger edits false).error = true) ∧
    ((saveHandler ledger edits false).sinkLedger = none) ∧
    ((saveHandler ledger edits false).memLedger = applyEdits ledger edits) ∧
    ((saveHandler ledger edits true).error = false) ∧
    ((saveHandler ledger edits true).sinkLedger = some (applyEdits ledger edits)) ∧
    (∀ i, (∀ p ∈ edits, p.1 ≠ i) →
      (saveHandler ledger edits false).memLedger[i]? = ledger[i]?) := by
  refine ⟨rfl, rfl, rfl, rfl, rfl, ?_⟩
  intro i h
  exact applyEdits_untouched edits ledger i h

/-- Witness for the amended C9: the untouched second row survives a
failed save unchanged. -/
theorem c9_amended_witness :
    (saveHandler [w9, w9b] [(0, w9e)] false).memLedger[1]? = some w9b := by
  rw [(c9_amended [w9, w9b] [(0, w9e)]).2.2.2.2.2 1 (by decide)]
  rfl
